import Mathlib

/-!
# Verification of the grimoire Versioned Item Store

A shallow embedding of the persistence core of the grimoire catalog manager
(`src/models/category.rs`, `src/models/item.rs`, `src/db/schema.rs`,
`src/db/items.rs`) together with proofs of the specified properties.

Modelling conventions:
* The SQLite database backing the store is modelled as an explicit state
  (`DB`): the `items` table, the `item_versions` snapshot table and the
  `items_fts` full-text index are lists of rows in rowid/insertion order;
  `AUTOINCREMENT` is a counter.
* `i64` values are modelled as `Int`; the store only ever writes version
  numbers `1` and `v + 1`, far from any overflow.
* SQLite `DATETIME` values (`CURRENT_TIMESTAMP`) are abstract instants,
  modelled as `Nat`; operations that consult the clock take it as an
  explicit `now` argument.  `parse_sqlite_datetime` round-trips every
  timestamp the store itself writes, so it is modelled as the identity.
* Statements that can only fail through the constraints modelled here
  (the `UNIQUE` name column, the missing-id check, the missing-version
  check) return `Except StoreError`.
-/

/-! String primitives.  The Rust code uses `str::trim`, `str::to_lowercase`,
`str::split(',')`, `str::is_empty` and `Ord::cmp` on `String`; they are
embedded here as structural recursions over the character list of a
`String` (whitespace and case per their ASCII behaviour, which covers
every value the properties below exercise; UTF-8 byte order on Rust
strings coincides with code-point order, mirrored by `strCmp`). -/

/-- Rust `str::is_empty`. -/
def strIsEmpty (s : String) : Bool := s.data.isEmpty

/-- Rust `str::trim`: strip leading and trailing whitespace. -/
def strTrim (s : String) : String :=
  String.mk (((s.data.dropWhile Char.isWhitespace).reverse.dropWhile Char.isWhitespace).reverse)

/-- Rust `str::to_lowercase`. -/
def strToLower (s : String) : String := String.mk (s.data.map Char.toLower)

/-- Helper for `strSplit`: accumulates the current piece (reversed). -/
def strSplitAux (sep : Char) : List Char → List Char → List String
  | [], acc => [String.mk acc.reverse]
  | c :: cs, acc =>
      if c == sep then String.mk acc.reverse :: strSplitAux sep cs []
      else strSplitAux sep cs (c :: acc)

/-- Rust `str::split(sep)` for a single-character separator: adjacent separators
and separators at the ends yield empty pieces, and the empty string
yields one empty piece — exactly Rust's behaviour. -/
def strSplit (sep : Char) (s : String) : List String := strSplitAux sep s.data []

/-- Lexicographic comparison of character lists by code point. -/
def charsCmp : List Char → List Char → Ordering
  | [], [] => Ordering.eq
  | [], _ :: _ => Ordering.lt
  | _ :: _, [] => Ordering.gt
  | a :: as_, b :: bs =>
      (compare a.toNat b.toNat).then (charsCmp as_ bs)

/-- Rust `Ord::cmp` on `String`: byte-wise UTF-8 comparison, which equals
code-point-wise lexicographic comparison. -/
def strCmp (a b : String) : Ordering := charsCmp a.data b.data

/-- The four item categories (`src/models/category.rs`, `enum Category`). -/
inductive Category where
  | prompt
  | agent
  | skill
  | command
deriving DecidableEq, Repr

/-- Model of `Category::as_str` (`src/models/category.rs`). -/
def Category.as_str : Category → String
  | .prompt => "prompt"
  | .agent => "agent"
  | .skill => "skill"
  | .command => "command"

/-- Model of `Category::from_str` (`src/models/category.rs`): lower-cases the input
and falls back to `Prompt` on anything unrecognised. -/
def Category.from_str (s : String) : Category :=
  match strToLower s with
  | "prompt" => Category.prompt
  | "agent" => Category.agent
  | "skill" => Category.skill
  | "command" => Category.command
  | _ => Category.prompt

/-- The in-memory item entity (`src/models/item.rs`, `struct Item`).
The `version` field is used throughout `src/db/items.rs`
(`current.version`, `item.version`, the struct literal in `get_version`)
and `src/ui/view_screen.rs` (`item.version : i64`); the copy of
`models/item.rs` in the tree omits it.  Modelled from the spec: `version`
is "a monotonically increasing integer starting at 1 on creation". -/
structure Item where
  id : Option Int
  name : String
  category : Category
  description : Option String
  content : String
  model : Option String
  tools : Option String
  allowed_tools : Option String
  argument_hint : Option String
  permission_mode : Option String
  skills : Option String
  tags : Option String
  created_at : Option Nat
  updated_at : Option Nat
  version : Int
deriving DecidableEq, Repr

/-- A row of the `items` table (`src/db/schema.rs`): all item fields plus
the `DEFAULT CURRENT_TIMESTAMP` timestamps; `category` is stored as its
`TEXT` token. -/
structure ItemRow where
  id : Int
  name : String
  category : String
  description : Option String
  content : String
  model : Option String
  tools : Option String
  allowed_tools : Option String
  argument_hint : Option String
  permission_mode : Option String
  skills : Option String
  tags : Option String
  created_at : Nat
  updated_at : Nat
  version : Int
deriving DecidableEq, Repr

/-- A row of the `item_versions` snapshot table (`src/db/schema.rs`):
a full copy of the item fields, the owning `item_id`, the snapshotted
`version`, and the row's own `created_at DEFAULT CURRENT_TIMESTAMP`. -/
structure VersionRow where
  item_id : Int
  version : Int
  name : String
  category : String
  description : Option String
  content : String
  model : Option String
  tools : Option String
  allowed_tools : Option String
  argument_hint : Option String
  permission_mode : Option String
  skills : Option String
  tags : Option String
  created_at : Nat
deriving DecidableEq, Repr

/-- An entry of the `items_fts` full-text index (`src/db/schema.rs`),
keyed by the owning row's id (`content_rowid='id'`). -/
structure FtsEntry where
  rowid : Int
  name : String
  description : Option String
  content : String
  tags : Option String
deriving DecidableEq, Repr

/-- The whole backing database: the three tables in rowid order plus the
`AUTOINCREMENT` counter for `items.id`. -/
structure DB where
  items : List ItemRow
  item_versions : List VersionRow
  fts : List FtsEntry
  nextItemId : Int
deriving DecidableEq, Repr

/-- The empty, freshly-initialised store (`init_schema` on a new file);
SQLite hands out rowid 1 first. -/
def DB.empty : DB := { items := [], item_versions := [], fts := [], nextItemId := 1 }

/-- The failures the modelled statements can produce, named after the
spec's error taxonomy (§7): `conflict` is the `UNIQUE` violation on
`items.name`, raised by `insert`'s `INSERT` and by `update`'s `UPDATE`
when the written name collides with another row; `missingId` is `"Item
must have an id to update"`; `notFound` is `"Version not found"` in
`restore_version`. -/
inductive StoreError where
  | conflict
  | missingId
  | notFound
deriving DecidableEq, Repr

instance {ε α : Type} [DecidableEq ε] [DecidableEq α] : DecidableEq (Except ε α) :=
  fun x y =>
    match x, y with
    | .ok a, .ok b =>
        if h : a = b then isTrue (h ▸ rfl) else isFalse (fun hh => h (Except.ok.inj hh))
    | .error a, .error b =>
        if h : a = b then isTrue (h ▸ rfl) else isFalse (fun hh => h (Except.error.inj hh))
    | .ok _, .error _ => isFalse (fun h => Except.noConfusion h)
    | .error _, .ok _ => isFalse (fun h => Except.noConfusion h)

/-- Model of `Item::from_row` (`src/models/item.rs`): builds an `Item` from a row of
the 15-column `SELECT` over `items`; `category` goes through
`Category::from_str`, timestamps through `parse_sqlite_datetime`
(identity on the abstract instants). -/
def Item.from_row (r : ItemRow) : Item :=
  { id := some r.id
    name := r.name
    category := Category.from_str r.category
    description := r.description
    content := r.content
    model := r.model
    tools := r.tools
    allowed_tools := r.allowed_tools
    argument_hint := r.argument_hint
    permission_mode := r.permission_mode
    skills := r.skills
    tags := r.tags
    created_at := some r.created_at
    updated_at := some r.updated_at
    version := r.version }

/-- Model of `Item::validate` (`src/models/item.rs`): pushes an error string per
failed requirement and fails iff the list is non-empty. -/
def Item.validate (it : Item) : Except (List String) Unit :=
  let errors : List String := []
  let errors := if strIsEmpty (strTrim it.name) then errors ++ ["Name is required"] else errors
  let errors := if strIsEmpty (strTrim it.content) then errors ++ ["Content is required"] else errors
  let errors :=
    match it.category with
    | .agent | .skill =>
        if ((it.description.map (fun s => strIsEmpty (strTrim s))).getD true) then
          errors ++ ["Description is required for this category"]
        else errors
    | _ => errors
  if errors.isEmpty then Except.ok () else Except.error errors

/-- Rust's stable `sort_by`, modelled as stable insertion sort over the
`le` relation "comparator does not say Greater". -/
def insertSorted (le : α → α → Bool) (x : α) : List α → List α
  | [] => [x]
  | y :: ys => if le x y then x :: y :: ys else y :: insertSorted le x ys

/-- See `insertSorted`: a stable sort, agreeing with `sort_by` on every
total comparator. -/
def sortBy (le : α → α → Bool) : List α → List α
  | [] => []
  | x :: xs => insertSorted le x (sortBy le xs)

namespace ItemStore

/-- Model of `ItemStore::get` (`src/db/items.rs`): `SELECT ... FROM items WHERE
id = ?` — the first row with the given id, passed through
`Item::from_row`. -/
def get (db : DB) (id : Int) : Option Item :=
  (db.items.find? (fun r => r.id == id)).map Item.from_row

/-- Model of `ItemStore::insert` (`src/db/items.rs`): `INSERT INTO items (...)
VALUES (..., 1)`.  The `UNIQUE` constraint on `items.name`
(`src/db/schema.rs`) aborts the statement with a conflict when the name
is already present; otherwise the row is appended with a fresh
autoincrement id, `version = 1` and both timestamps defaulted to
`CURRENT_TIMESTAMP`, and the `items_ai` trigger adds the FTS entry.
Returns `last_insert_rowid()`. -/
def insert (db : DB) (now : Nat) (item : Item) : Except StoreError Int × DB :=
  if db.items.any (fun r => r.name == item.name) then
    (Except.error StoreError.conflict, db)
  else
    let id := db.nextItemId
    let row : ItemRow :=
      { id := id
        name := item.name
        category := item.category.as_str
        description := item.description
        content := item.content
        model := item.model
        tools := item.tools
        allowed_tools := item.allowed_tools
        argument_hint := item.argument_hint
        permission_mode := item.permission_mode
        skills := item.skills
        tags := item.tags
        created_at := now
        updated_at := now
        version := 1 }
    let entry : FtsEntry :=
      { rowid := id
        name := item.name
        description := item.description
        content := item.content
        tags := item.tags }
    (Except.ok id,
      { db with
          items := db.items ++ [row]
          fts := db.fts ++ [entry]
          nextItemId := db.nextItemId + 1 })

/-- The row produced by `update`'s `UPDATE items SET ... WHERE id = ?`
statement on one affected row: the caller's field values, `updated_at =
CURRENT_TIMESTAMP`, `version = version + 1`; `id` and `created_at` are
untouched. -/
def updatedRow (r : ItemRow) (now : Nat) (item : Item) : ItemRow :=
  { r with
      name := item.name
      category := item.category.as_str
      description := item.description
      content := item.content
      model := item.model
      tools := item.tools
      allowed_tools := item.allowed_tools
      argument_hint := item.argument_hint
      permission_mode := item.permission_mode
      skills := item.skills
      tags := item.tags
      updated_at := now
      version := r.version + 1 }

/-- The row `update` copies into `item_versions` before mutating: the
`INSERT INTO item_versions` statement's values — the current persisted
item's fields at its current version, with the snapshot row's
`created_at` defaulting to `CURRENT_TIMESTAMP`. -/
def snapshotRow (item_id : Int) (current : Item) (now : Nat) : VersionRow :=
  { item_id := item_id
    version := current.version
    name := current.name
    category := current.category.as_str
    description := current.description
    content := current.content
    model := current.model
    tools := current.tools
    allowed_tools := current.allowed_tools
    argument_hint := current.argument_hint
    permission_mode := current.permission_mode
    skills := current.skills
    tags := current.tags
    created_at := now }

/-- The `UNIQUE(items.name)` re-check SQLite performs while executing
`update`'s `UPDATE` statement: it fires exactly when some row is matched
by the `WHERE` clause and the written name is currently held by a row
outside that match (row ids are unique under the `PRIMARY KEY`, so the
rows outside the match are all the other rows). -/
def nameConflict (rows : List ItemRow) (item_id : Int) (item : Item) : Bool :=
  rows.any (fun r => r.id == item_id)
    && rows.any (fun r => !(r.id == item_id) && r.name == item.name)

/-- Model of `ItemStore::update` (`src/db/items.rs`): fails with an error
when the item has no id.  When the current row exists it is first copied
into `item_versions` at its current version (snapshot-before-write, see
`snapshotRow`) — a separate, already-committed statement (the Rust code
opens no transaction).  The `UPDATE` statement then rewrites every row
matching the id; SQLite re-checks `UNIQUE` on `items.name`
(`src/db/schema.rs`), so when at least one row is updated and the
written name is already held by a different row (ids are unique under
the `PRIMARY KEY`), the statement aborts and rolls back only its own
changes, and rusqlite surfaces the constraint violation as an `Err`
propagated by `?` — leaving the snapshot row in place.  On success the
`items_au` trigger deletes and re-adds the FTS entry per affected
row. -/
def update (db : DB) (now : Nat) (item : Item) : Except StoreError Unit × DB :=
  match item.id with
  | none => (Except.error StoreError.missingId, db)
  | some item_id =>
    let db1 :=
      match get db item_id with
      | some current => { db with item_versions := db.item_versions ++ [snapshotRow item_id current now] }
      | none => db
    if nameConflict db1.items item_id item then
      (Except.error StoreError.conflict, db1)
    else
    let affected := db1.items.filter (fun r => r.id == item_id)
    let db2 : DB :=
      { db1 with
          items := db1.items.map (fun r => if r.id == item_id then updatedRow r now item else r)
          fts := affected.foldl
            (fun fts r =>
              (fts.filter (fun e => !(e.rowid == r.id))) ++
                [{ rowid := r.id
                   name := item.name
                   description := item.description
                   content := item.content
                   tags := item.tags }])
            db1.fts }
    (Except.ok (), db2)

/-- The token stream `get_tags_with_counts` iterates over: every non-null
`tags` string (`SELECT tags FROM items WHERE tags IS NOT NULL`, row
order), split on `','`, each piece trimmed and lower-cased, empty pieces
skipped. -/
def tagTokens (db : DB) : List String :=
  (((db.items.filterMap (fun r => r.tags)).flatMap (fun tags => strSplit ',' tags)).map
      (fun tag => strToLower (strTrim tag))).filter (fun tag => !(strIsEmpty tag))

/-- One step of the `HashMap` accumulation in `get_tags_with_counts`
(`*tag_counts.entry(tag).or_insert(0) += 1`), on an association list in
first-insertion order — a deterministic stand-in for the hash map, sound
because the final sort below orders the pairs totally. -/
def bumpTag (m : List (String × Nat)) (t : String) : List (String × Nat) :=
  match m with
  | [] => [(t, 1)]
  | (k, c) :: rest => if k == t then (k, c + 1) :: rest else (k, c) :: bumpTag rest t

/-- The comparator passed to `sort_by` in `get_tags_with_counts`:
`b.1.cmp(&a.1).then_with(|| a.0.cmp(&b.0))` — count descending, then tag
ascending. -/
def tagCmp (a b : String × Nat) : Ordering :=
  (compare b.2 a.2).then (strCmp a.1 b.1)

/-- Model of `ItemStore::get_tags_with_counts` (`src/db/items.rs`): counts the tag
tokens of all rows, then sorts the `(tag, count)` pairs by count
descending with ties on ascending tag name. -/
def get_tags_with_counts (db : DB) : List (String × Nat) :=
  sortBy (fun a b => !(tagCmp a b == Ordering.gt)) ((tagTokens db).foldl bumpTag [])

/-- Model of `ItemStore::delete` (`src/db/items.rs`): `DELETE FROM items WHERE
id = ?`.  Per deleted row the `items_ad` trigger removes the FTS entry.
Modelled from the spec: foreign-key enforcement is a connection/build
configuration outside `src/`; per the schema's `ON DELETE CASCADE`
(`src/db/schema.rs`) and §4.2 ("cascades removal of all snapshots"),
deleting a row also deletes its `item_versions` rows. -/
def delete (db : DB) (id : Int) : Except StoreError Unit × DB :=
  let affected := db.items.filter (fun r => r.id == id)
  (Except.ok (),
    { db with
        items := db.items.filter (fun r => !(r.id == id))
        item_versions := affected.foldl
          (fun vs r => vs.filter (fun w => !(w.item_id == r.id))) db.item_versions
        fts := affected.foldl
          (fun fts r => fts.filter (fun e => !(e.rowid == r.id))) db.fts })

/-- The row-mapping closure of the snapshot-table lookup inside
`ItemStore::get_version` (`src/db/items.rs`): an `item_versions` row
rebuilt into an `Item`.  The `SELECT` reads the snapshot's single
`created_at` column twice (columns 12 and 13), so both `created_at` and
`updated_at` come from it. -/
def snapshotToItem (w : VersionRow) : Item :=
  { id := some w.item_id
    name := w.name
    category := Category.from_str w.category
    description := w.description
    content := w.content
    model := w.model
    tools := w.tools
    allowed_tools := w.allowed_tools
    argument_hint := w.argument_hint
    permission_mode := w.permission_mode
    skills := w.skills
    tags := w.tags
    created_at := some w.created_at
    updated_at := some w.created_at
    version := w.version }

/-- See `snapshotToItem`: the snapshot lookup itself. -/
def versionLookup (db : DB) (item_id version : Int) : Option Item :=
  (db.item_versions.find? (fun w => w.item_id == item_id && w.version == version)).map
    snapshotToItem

/-- Model of `ItemStore::get_version` (`src/db/items.rs`): returns the current row
when its version matches, otherwise falls through to the snapshot
table. -/
def get_version (db : DB) (item_id version : Int) : Option Item :=
  match get db item_id with
  | some item =>
      if item.version == version then some item
      else versionLookup db item_id version
  | none => versionLookup db item_id version

/-- Model of `ItemStore::restore_version` (`src/db/items.rs`): fetches the target
version via `get_version` ("Version not found" when absent) and replays
it through a full `update`. -/
def restore_version (db : DB) (now : Nat) (item_id version : Int) :
    Except StoreError Unit × DB :=
  match get_version db item_id version with
  | none => (Except.error StoreError.notFound, db)
  | some old_version => update db now old_version

end ItemStore

/-- First occurrences of a token stream, in order of first appearance:
the key order in which the counting pass of §4.5 discovers distinct
tags. -/
def dedupFirstAux (seen : List String) : List String → List String
  | [] => []
  | t :: ts =>
      if seen.contains t then dedupFirstAux seen ts
      else t :: dedupFirstAux (seen ++ [t]) ts

/-- See `dedupFirstAux`. -/
def dedupFirst (l : List String) : List String := dedupFirstAux [] l

/-- Modelled from the spec (§4.5, refinement side): the tag frequency
table obtained "by scanning all non-null `tags` strings, splitting on
comma, trimming whitespace, lower-casing, discarding empty tokens, and
counting", with "ties in count ... on ascending lexical order of the tag
string".  Each distinct token is paired with its number of occurrences,
and the pairs are sorted by count descending then tag ascending. -/
def spec_tag_table (db : DB) : List (String × Nat) :=
  let tokens :=
    (((db.items.filterMap (fun r => r.tags)).flatMap (fun tags => strSplit ',' tags)).map
        (fun tag => strToLower (strTrim tag))).filter (fun tag => !(strIsEmpty tag))
  sortBy
    (fun a b => decide (b.2 < a.2) || (b.2 == a.2 && !(strCmp a.1 b.1 == Ordering.gt)))
    ((dedupFirst tokens).map (fun t => (t, tokens.count t)))

/-- The dense version sequence `1..=n` (as `i64` values) that §3's
invariant promises: `versionRange n = [1, 2, ..., n]`. -/
def versionRange (n : Nat) : List Int :=
  (List.range n).map (fun k => (k : Int) + 1)

/-- A single-writer sequence of `update` calls: each element is the clock
instant of the call and the caller's item value. -/
def ItemStore.applyUpdates (db : DB) (us : List (Nat × Item)) : DB :=
  us.foldl (fun d p => (ItemStore.update d p.1 p.2).2) db

/-- Whether every `update` call in the sequence reports success when run
from the given store — the "N successful update calls" the version
invariant quantifies over. -/
def ItemStore.updatesOk (db : DB) : List (Nat × Item) → Bool
  | [] => true
  | (c, u) :: rest =>
      decide ((ItemStore.update db c u).1 = Except.ok ())
        && ItemStore.updatesOk ((ItemStore.update db c u).2) rest

/-- A minimal item value used as a concrete test fixture (the §8 scenario's
item A: name "x", category Prompt, content "hello"). -/
def itemA : Item :=
  { id := none, name := "x", category := .prompt, description := none, content := "hello",
    model := none, tools := none, allowed_tools := none, argument_hint := none,
    permission_mode := none, skills := none, tags := none, created_at := none,
    updated_at := none, version := 1 }

/-- Fixture: item A as the caller edits it for the §8 scenario's update
(content changed to "world", id now assigned). -/
def itemA2 : Item := { itemA with id := some 1, content := "world" }

/-- Fixture: the store right after inserting item A at instant 0. -/
def dbA : DB := (ItemStore.insert DB.empty 0 itemA).2

/-- Fixture: `dbA` after updating item A to `itemA2` at instant 1. -/
def dbA2 : DB := (ItemStore.update dbA 1 itemA2).2

/-- Fixture: three items whose tags are `"Go, rust"`, `"go"` and
`"RUST, go"` — the §8 tag-aggregation example. -/
def dbTags : DB :=
  (ItemStore.insert
    (ItemStore.insert
      (ItemStore.insert DB.empty 0 { itemA with name := "a", tags := some "Go, rust" }).2
      0 { itemA with name := "b", tags := some "go" }).2
    0 { itemA with name := "c", tags := some "RUST, go" }).2

/-- Fixture: the current persisted state of item A in `dbA2` (content
"world", version 2). -/
def curA2 : Item :=
  { itemA with
      id := some 1
      content := "world"
      created_at := some 0
      updated_at := some 1
      version := 2 }

/-- Fixture: a store where a restore runs into the name-uniqueness
constraint — item 1 was created as "a" and renamed to "b" (so its
version-1 snapshot records the name "a"), after which a second item took
the name "a". -/
def dbColl : DB :=
  (ItemStore.insert
    ((ItemStore.update
      ((ItemStore.insert DB.empty 0 { itemA with name := "a" }).2)
      1 { itemA with id := some 1, name := "b" }).2)
    2 { itemA with name := "a" }).2

/-! Helper lemmas about the list combinators the model is built from. -/

theorem find?_map_comm (g : α → α) (p : α → Bool) (hp : ∀ a, p (g a) = p a) (l : List α) :
    (l.map g).find? p = (l.find? p).map g := by
  induction l with
  | nil => rfl
  | cons a t ih =>
      simp only [List.map_cons, List.find?_cons]
      rw [hp a]
      cases h : p a <;> simp [ih]

theorem find?_eq_some_of_unique (p : α → Bool) (l : List α) (x : α)
    (hx : x ∈ l) (hpx : p x = true) (huniq : ∀ y ∈ l, p y = true → y = x) :
    l.find? p = some x := by
  induction l with
  | nil => cases hx
  | cons a t ih =>
      cases hpa : p a with
      | true =>
          have ha : a = x := huniq a (List.mem_cons_self a t) hpa
          subst ha
          simp [List.find?_cons, hpa]
      | false =>
          have hx' : x ∈ t := by
            rcases List.mem_cons.mp hx with h | h
            · subst h; rw [hpx] at hpa; cases hpa
            · exact h
          simp only [List.find?_cons, hpa]
          exact ih hx' (fun y hy hpy => huniq y (List.mem_cons_of_mem a hy) hpy)

theorem mem_foldl_filter {α β : Type} (q : β → α → Bool) (l : List β) (init : List α) (x : α)
    (hx : x ∈ l.foldl (fun acc b => acc.filter (q b)) init) :
    x ∈ init ∧ ∀ b ∈ l, q b x = true := by
  induction l generalizing init with
  | nil => simpa using hx
  | cons b t ih =>
      have h := ih (init.filter (q b)) hx
      have hmem := List.mem_filter.mp h.1
      refine ⟨hmem.1, ?_⟩
      intro c hc
      rcases List.mem_cons.mp hc with h' | h'
      · subst h'; exact hmem.2
      · exact h.2 c h'

theorem from_str_as_str (c : Category) : Category.from_str c.as_str = c := by
  cases c <;> decide

theorem updatedRow_id (r : ItemRow) (now : Nat) (it : Item) :
    (ItemStore.updatedRow r now it).id = r.id := rfl

/-! ## C9 — idempotent delete -/

/-- C9: `delete(id)` on an identifier with no matching row succeeds and
returns the store exactly unchanged: no row, snapshot or index entry is
touched. -/
theorem delete_idempotent (db : DB) (id : Int)
    (h : ItemStore.get db id = none) :
    ItemStore.delete db id = (Except.ok (), db) := by
  have hfind : db.items.find? (fun r => r.id == id) = none := by
    cases hf : db.items.find? (fun r => r.id == id) with
    | none => rfl
    | some r => rw [ItemStore.get, hf] at h; cases h
  have hall : ∀ r ∈ db.items, ¬((r.id == id) = true) := List.find?_eq_none.mp hfind
  have haff : db.items.filter (fun r => r.id == id) = [] := by
    rw [List.filter_eq_nil_iff]
    exact hall
  have hkeep : db.items.filter (fun r => !(r.id == id)) = db.items := by
    rw [List.filter_eq_self]
    intro r hr
    simp [hall r hr]
  simp only [ItemStore.delete, haff, hkeep, List.foldl_nil]

/-- C9 witness: deleting id 9, absent from the one-item fixture store,
returns success and the unchanged store. -/
theorem delete_idempotent_witness :
    ItemStore.delete dbA 9 = (Except.ok (), dbA) :=
  delete_idempotent dbA 9 (by decide)

/-! ## C1 — update against a nonexistent identifier -/

/-- C1 counterexample: with an empty store, `update` on an item whose id
(5) matches no row reports success (`Ok`), not a `NotFound` failure —
refuting the claim that such a call fails — while indeed leaving the
store unchanged. -/
theorem update_missing_id_not_notFound :
    ItemStore.get DB.empty 5 = none ∧
    ItemStore.update DB.empty 7 { itemA with id := some 5 } = (Except.ok (), DB.empty) := by
  constructor <;> decide

/-- C1 amended: for every item whose identifier is absent from the store,
`update` returns success (it does not fail, so no `NotFound` is
reported) and the store is exactly unchanged — no row is modified and no
snapshot row is written. -/
theorem update_missing_id_noop (db : DB) (now : Nat) (item : Item) (id : Int)
    (hid : item.id = some id) (h : ItemStore.get db id = none) :
    ItemStore.update db now item = (Except.ok (), db) := by
  have hfind : db.items.find? (fun r => r.id == id) = none := by
    cases hf : db.items.find? (fun r => r.id == id) with
    | none => rfl
    | some r => rw [ItemStore.get, hf] at h; cases h
  have hall : ∀ r ∈ db.items, ¬((r.id == id) = true) := List.find?_eq_none.mp hfind
  have hmap : db.items.map (fun r => if r.id == id then ItemStore.updatedRow r now item else r)
      = db.items := by
    have : ∀ r ∈ db.items,
        (if r.id == id then ItemStore.updatedRow r now item else r) = r := by
      intro r hr
      simp [hall r hr]
    calc db.items.map (fun r => if r.id == id then ItemStore.updatedRow r now item else r)
        = db.items.map (fun r => r) := List.map_congr_left this
      _ = db.items := List.map_id' db.items
  have haff : db.items.filter (fun r => r.id == id) = [] := by
    rw [List.filter_eq_nil_iff]
    exact hall
  have hnc : ItemStore.nameConflict db.items id item = false := by
    have hany1 : db.items.any (fun r => r.id == id) = false := by
      rw [List.any_eq_false]
      exact hall
    rw [ItemStore.nameConflict, hany1, Bool.false_and]
  simp only [ItemStore.update, hid, h, hnc, Bool.false_eq_true, if_false, hmap, haff,
    List.foldl_nil]

/-- C1 amended, witness: the counterexample store instantiates the amended
claim. -/
theorem update_missing_id_noop_witness :
    ItemStore.update DB.empty 7 { itemA with id := some 5 } = (Except.ok (), DB.empty) :=
  update_missing_id_noop DB.empty 7 { itemA with id := some 5 } 5 rfl (by decide)

/-! ## C7 — unique names -/

/-- Helper for C7: `insert` fails with `Conflict`, leaving the store
untouched, whenever some existing row already carries the name. -/
theorem insert_conflict_of_mem (db : DB) (t : Nat) (it : Item)
    (h : ∃ r ∈ db.items, r.name = it.name) :
    ItemStore.insert db t it = (Except.error StoreError.conflict, db) := by
  rw [ItemStore.insert]
  have hc : db.items.any (fun r => r.name == it.name) = true := by
    rcases h with ⟨r, hr, hn⟩
    exact List.any_eq_true.mpr ⟨r, hr, by simp [hn]⟩
  simp [hc]

/-- C7: after a successful insert, a second insert with the same name
fails with `Conflict` and returns the store unchanged (same row list,
so same row count and same rows). -/
theorem insert_conflict (db0 db1 : DB) (t0 t1 : Nat) (it1 it2 : Item) (id1 : Int)
    (h1 : ItemStore.insert db0 t0 it1 = (Except.ok id1, db1))
    (hname : it2.name = it1.name) :
    ItemStore.insert db1 t1 it2 = (Except.error StoreError.conflict, db1) := by
  rw [ItemStore.insert] at h1
  split at h1
  · cases h1
  · rw [Prod.mk.injEq] at h1
    have hdb1 := h1.2
    subst hdb1
    apply insert_conflict_of_mem
    exact ⟨_, List.mem_append_right _ (List.mem_singleton.mpr rfl), hname.symm⟩

/-- C7 witness: inserting a second item named "x" into the fixture store
that already holds item A (named "x") fails with `Conflict` and leaves
the store unchanged. -/
theorem insert_conflict_witness :
    ItemStore.insert dbA 3 { itemA with content := "other" }
      = (Except.error StoreError.conflict, dbA) :=
  insert_conflict DB.empty dbA 0 3 itemA { itemA with content := "other" } 1 rfl rfl

/-! ## C8 — category validation -/

/-- C8: validation fails exactly when the trimmed name is empty, the
trimmed content is empty, or the category is Agent or Skill and the
description is absent or trims to empty; concretely, item A as an Agent
without a description fails while the identical payload as a Prompt
passes. -/
theorem validate_spec :
    (∀ it : Item,
        (∃ es, Item.validate it = Except.error es) ↔
          (strIsEmpty (strTrim it.name) = true ∨ strIsEmpty (strTrim it.content) = true ∨
            ((it.category = Category.agent ∨ it.category = Category.skill) ∧
              (it.description = none ∨
                ∃ d, it.description = some d ∧ strIsEmpty (strTrim d) = true)))) ∧
    (∃ es, Item.validate { itemA with category := Category.agent } = Except.error es) ∧
    Item.validate { itemA with category := Category.prompt } = Except.ok () := by
  refine ⟨?_, ⟨["Description is required for this category"], by decide⟩, by decide⟩
  intro it
  cases hcat : it.category <;> cases hd : it.description <;>
    cases hn : strIsEmpty (strTrim it.name) <;>
    cases hct : strIsEmpty (strTrim it.content) <;>
    simp [Item.validate, hcat, hd, hn, hct]
  all_goals (rename_i d; cases hdd : strIsEmpty (strTrim d) <;> simp [hdd])

/-! ## C10 — snapshot timestamps in get_version -/

/-- C10: when `get_version` resolves through the snapshot table (the
requested version is not the current row's), the returned item's
`created_at` and `updated_at` are both the snapshot row's single
`created_at` value. -/
theorem get_version_snapshot_timestamps (db : DB) (id v : Int) (w : VersionRow)
    (hcur : ∀ cur, ItemStore.get db id = some cur → ¬(cur.version = v))
    (hfind : db.item_versions.find? (fun u => u.item_id == id && u.version == v) = some w) :
    ∃ it, ItemStore.get_version db id v = some it ∧
      it.created_at = some w.created_at ∧ it.updated_at = some w.created_at := by
  refine ⟨ItemStore.snapshotToItem w, ?_, rfl, rfl⟩
  cases hg : ItemStore.get db id with
  | none =>
      simp [ItemStore.get_version, hg, ItemStore.versionLookup, hfind]
  | some cur =>
      have hne := hcur cur hg
      simp [ItemStore.get_version, hg, ItemStore.versionLookup, hfind,
        beq_iff_eq, hne]

/-- C10 witness: in the updated fixture store the snapshot of version 1
was written at instant 1, and `get_version` reports both timestamps as
that instant. -/
theorem get_version_snapshot_timestamps_witness :
    ∃ it, ItemStore.get_version dbA2 1 1 = some it ∧
      it.created_at = some 1 ∧ it.updated_at = some 1 := by
  have h := get_version_snapshot_timestamps dbA2 1 1
    { item_id := 1, version := 1, name := "x", category := "prompt", description := none,
      content := "hello", model := none, tools := none, allowed_tools := none,
      argument_hint := none, permission_mode := none, skills := none, tags := none,
      created_at := 1 }
    (by decide) (by decide)
  exact h

/-! ## C2 — delete cascades -/

/-- C2: deleting an identifier present in the store succeeds, removes
every primary row with that id while keeping all others, removes every
snapshot row owned by that id, and removes the id's full-text index
entry. -/
theorem delete_cascades (db : DB) (id : Int)
    (hpres : ∃ r ∈ db.items, r.id = id) :
    (ItemStore.delete db id).1 = Except.ok () ∧
    (∀ r ∈ (ItemStore.delete db id).2.items, ¬(r.id = id)) ∧
    (∀ r ∈ db.items, ¬(r.id = id) → r ∈ (ItemStore.delete db id).2.items) ∧
    (∀ w ∈ (ItemStore.delete db id).2.item_versions, ¬(w.item_id = id)) ∧
    (∀ e ∈ (ItemStore.delete db id).2.fts, ¬(e.rowid = id)) := by
  rcases hpres with ⟨r0, hr0, hr0id⟩
  have hr0aff : r0 ∈ db.items.filter (fun r => r.id == id) :=
    List.mem_filter.mpr ⟨hr0, by simp [hr0id]⟩
  refine ⟨rfl, ?_, ?_, ?_, ?_⟩
  · intro r hr
    have := (List.mem_filter.mp hr).2
    simpa using this
  · intro r hr hne
    exact List.mem_filter.mpr ⟨hr, by simpa using hne⟩
  · intro w hw
    have h := mem_foldl_filter (fun (b : ItemRow) (w : VersionRow) => !(w.item_id == b.id))
      (db.items.filter (fun r => r.id == id)) db.item_versions w hw
    have := h.2 r0 hr0aff
    simp [hr0id] at this
    exact this
  · intro e he
    have h := mem_foldl_filter (fun (b : ItemRow) (e : FtsEntry) => !(e.rowid == b.id))
      (db.items.filter (fun r => r.id == id)) db.fts e he
    have := h.2 r0 hr0aff
    simp [hr0id] at this
    exact this

/-- C2 witness: deleting item A (id 1) from the updated fixture store —
which holds one row, one snapshot and one index entry for id 1 —
satisfies all four cascade clauses. -/
theorem delete_cascades_witness :
    (ItemStore.delete dbA2 1).1 = Except.ok () ∧
    (∀ r ∈ (ItemStore.delete dbA2 1).2.items, ¬(r.id = 1)) ∧
    (∀ r ∈ dbA2.items, ¬(r.id = 1) → r ∈ (ItemStore.delete dbA2 1).2.items) ∧
    (∀ w ∈ (ItemStore.delete dbA2 1).2.item_versions, ¬(w.item_id = 1)) ∧
    (∀ e ∈ (ItemStore.delete dbA2 1).2.fts, ¬(e.rowid = 1)) :=
  delete_cascades dbA2 1 (by decide)

/-! Helper lemmas about `update` and `get`. -/

theorem find?_append_right (p : α → Bool) (l1 l2 : List α)
    (h : ∀ x ∈ l1, p x = false) : (l1 ++ l2).find? p = l2.find? p := by
  induction l1 with
  | nil => rfl
  | cons a t ih =>
      simp only [List.cons_append, List.find?_cons, h a (List.mem_cons_self a t)]
      exact ih (fun x hx => h x (List.mem_cons_of_mem a hx))

theorem update_fst (db : DB) (now : Nat) (item : Item) (id : Int)
    (hid : item.id = some id)
    (hnc : ∀ r ∈ db.items, r.id ≠ id → r.name ≠ item.name) :
    (ItemStore.update db now item).1 = Except.ok () := by
  have hany2 : db.items.any (fun r => !(r.id == id) && r.name == item.name) = false := by
    rw [List.any_eq_false]
    intro r hr hcon
    rw [Bool.and_eq_true] at hcon
    have h1 : r.id ≠ id := by simpa using hcon.1
    have h2 : r.name = item.name := by simpa using hcon.2
    exact hnc r hr h1 h2
  have hc : ItemStore.nameConflict db.items id item = false := by
    rw [ItemStore.nameConflict, hany2, Bool.and_false]
  simp only [ItemStore.update, hid]
  cases hget : ItemStore.get db id <;> simp [hget, hc]

theorem update_ok_items (db : DB) (now : Nat) (item : Item) (id : Int)
    (hid : item.id = some id)
    (hok : (ItemStore.update db now item).1 = Except.ok ()) :
    ((ItemStore.update db now item).2).items
      = db.items.map (fun r => if r.id == id then ItemStore.updatedRow r now item else r) := by
  simp only [ItemStore.update, hid] at hok ⊢
  cases hc : ItemStore.nameConflict db.items id item with
  | true =>
      exfalso
      cases hget : ItemStore.get db id <;> simp [hget, hc] at hok
  | false =>
      cases hget : ItemStore.get db id <;> simp [hget, hc]

theorem update_items_of_err (db : DB) (now : Nat) (item : Item) (id : Int)
    (hid : item.id = some id)
    (herr : (ItemStore.update db now item).1 ≠ Except.ok ()) :
    ((ItemStore.update db now item).2).items = db.items := by
  simp only [ItemStore.update, hid] at herr ⊢
  cases hc : ItemStore.nameConflict db.items id item with
  | true => cases hget : ItemStore.get db id <;> simp [hget, hc]
  | false =>
      exfalso
      apply herr
      cases hget : ItemStore.get db id <;> simp [hget, hc]

theorem update_item_versions (db : DB) (now : Nat) (item cur : Item) (id : Int)
    (hid : item.id = some id) (hget : ItemStore.get db id = some cur) :
    ((ItemStore.update db now item).2).item_versions
      = db.item_versions ++ [ItemStore.snapshotRow id cur now] := by
  simp only [ItemStore.update, hid, hget]
  cases hc : ItemStore.nameConflict db.items id item <;> simp [hc]

theorem get_id (db : DB) (id : Int) (cur : Item)
    (h : ItemStore.get db id = some cur) : cur.id = some id := by
  cases hf : db.items.find? (fun r => r.id == id) with
  | none => rw [ItemStore.get, hf] at h; cases h
  | some r =>
      rw [ItemStore.get, hf, Option.map_some'] at h
      have hp := List.find?_some hf
      have : r.id = id := by simpa using hp
      cases h
      simp [Item.from_row, this]

theorem get_after_update (db : DB) (now : Nat) (item : Item) (id : Int) (r0 : ItemRow)
    (hid : item.id = some id)
    (hok : (ItemStore.update db now item).1 = Except.ok ())
    (hf : db.items.find? (fun r => r.id == id) = some r0) :
    ItemStore.get ((ItemStore.update db now item).2) id
      = some (Item.from_row (ItemStore.updatedRow r0 now item)) := by
  have hpg : ∀ r : ItemRow,
      (((if r.id == id then ItemStore.updatedRow r now item else r).id == id))
        = (r.id == id) := by
    intro r
    cases h : (r.id == id) <;> simp [h, ItemStore.updatedRow]
  rw [ItemStore.get, update_ok_items db now item id hid hok,
    find?_map_comm _ _ hpg, hf]
  have hp := List.find?_some hf
  have hid0 : r0.id = id := by simpa using hp
  simp [hid0]

theorem get_eq_from_row (db : DB) (id : Int) (cur : Item)
    (h : ItemStore.get db id = some cur) :
    ∃ r0, db.items.find? (fun r => r.id == id) = some r0 ∧ Item.from_row r0 = cur := by
  cases hf : db.items.find? (fun r => r.id == id) with
  | none => rw [ItemStore.get, hf] at h; cases h
  | some r =>
      rw [ItemStore.get, hf, Option.map_some'] at h
      exact ⟨r, rfl, Option.some.inj h⟩

/-! ## C4 — snapshot-before-write -/

/-- C4: after a successful `update` of an existing item whose persisted
state was `cur` (current version `cur.version`), `get_version` at that
old version returns exactly the previously persisted field values — not
the caller's new ones. -/
theorem snapshot_before_write (db : DB) (now : Nat) (item cur : Item) (id : Int)
    (hid : item.id = some id)
    (hget : ItemStore.get db id = some cur)
    (hfresh : ∀ w ∈ db.item_versions, ¬(w.item_id = id ∧ w.version = cur.version)) :
    ∃ it, ItemStore.get_version ((ItemStore.update db now item).2) id cur.version = some it ∧
      it.name = cur.name ∧ it.category = cur.category ∧
      it.description = cur.description ∧ it.content = cur.content ∧
      it.model = cur.model ∧ it.tools = cur.tools ∧
      it.allowed_tools = cur.allowed_tools ∧ it.argument_hint = cur.argument_hint ∧
      it.permission_mode = cur.permission_mode ∧ it.skills = cur.skills ∧
      it.tags = cur.tags ∧ it.version = cur.version := by
  obtain ⟨r0, hf, hfr⟩ := get_eq_from_row db id cur hget
  have hcurver : cur.version = r0.version := by rw [← hfr]; rfl
  by_cases hok : (ItemStore.update db now item).1 = Except.ok ()
  · -- the UPDATE went through: the old values sit in the fresh snapshot row
    have hget' := get_after_update db now item id r0 hid hok hf
    have hvne : ((Item.from_row (ItemStore.updatedRow r0 now item)).version == cur.version)
        = false := by
      have : (Item.from_row (ItemStore.updatedRow r0 now item)).version = r0.version + 1 := rfl
      rw [this, hcurver]
      simp only [beq_eq_false_iff_ne, ne_eq]
      omega
    have hvers := update_item_versions db now item cur id hid hget
    have hnone : ∀ w ∈ db.item_versions,
        ((fun w => w.item_id == id && w.version == cur.version) w) = false := by
      intro w hw
      have := hfresh w hw
      simp only [Bool.and_eq_false_iff, beq_eq_false_iff_ne, ne_eq]
      tauto
    refine ⟨ItemStore.snapshotToItem (ItemStore.snapshotRow id cur now), ?_,
      rfl, from_str_as_str cur.category, rfl, rfl, rfl, rfl, rfl, rfl, rfl, rfl, rfl, rfl⟩
    rw [ItemStore.get_version, hget']
    simp only [hvne, Bool.false_eq_true, if_false]
    rw [ItemStore.versionLookup, hvers, find?_append_right _ _ _ hnone]
    simp [ItemStore.snapshotRow]
  · -- the UPDATE aborted on the name constraint: the rows are untouched, so
    -- the old version is still the current row and carries the old values
    have hitems := update_items_of_err db now item id hid hok
    have hget' : ItemStore.get ((ItemStore.update db now item).2) id = some cur := by
      rw [ItemStore.get, hitems]
      exact hget
    refine ⟨cur, ?_, rfl, rfl, rfl, rfl, rfl, rfl, rfl, rfl, rfl, rfl, rfl, rfl⟩
    simp [ItemStore.get_version, hget']

/-- C4 witness: updating item A (persisted content "hello", version 1) to
content "world" leaves `get_version` at version 1 reporting all the old
field values. -/
theorem snapshot_before_write_witness :
    ∃ it, ItemStore.get_version ((ItemStore.update dbA 1 itemA2).2) 1
        ({ itemA with id := some 1, created_at := some 0, updated_at := some 0 } : Item).version
        = some it ∧
      it.name = "x" ∧ it.category = Category.prompt ∧
      it.description = none ∧ it.content = "hello" ∧
      it.model = none ∧ it.tools = none ∧
      it.allowed_tools = none ∧ it.argument_hint = none ∧
      it.permission_mode = none ∧ it.skills = none ∧
      it.tags = none ∧ it.version = 1 :=
  snapshot_before_write dbA 1 itemA2
    { itemA with id := some 1, created_at := some 0, updated_at := some 0 } 1
    rfl (by decide) (by decide)

/-! ## C5 — restore is additive, NotFound on missing version -/

theorem versionLookup_id (db : DB) (id v : Int) (old : Item)
    (h : ItemStore.versionLookup db id v = some old) : old.id = some id := by
  cases hf : db.item_versions.find? (fun w => w.item_id == id && w.version == v) with
  | none => rw [ItemStore.versionLookup, hf] at h; cases h
  | some w =>
      rw [ItemStore.versionLookup, hf, Option.map_some'] at h
      have hp := List.find?_some hf
      have hwid : w.item_id = id := by
        have := (Bool.and_eq_true _ _).mp hp
        simpa using this.1
      cases h
      simp [ItemStore.snapshotToItem, hwid]

theorem get_version_id (db : DB) (id v : Int) (old : Item)
    (h : ItemStore.get_version db id v = some old) : old.id = some id := by
  rw [ItemStore.get_version] at h
  cases hg : ItemStore.get db id with
  | none =>
      rw [hg] at h
      exact versionLookup_id db id v old h
  | some cur =>
      rw [hg] at h
      cases hv : (cur.version == v) with
      | true =>
          simp only [hv, if_true] at h
          cases h
          exact get_id db id old hg
      | false =>
          simp only [hv, Bool.false_eq_true, if_false] at h
          exact versionLookup_id db id v old h

/-- C5 counterexample: item 1 was created as "a", renamed to "b", and a
second item then took the name "a".  Version 1 exists for item 1, so the
claim demands that `restore_version(1, 1)` succeed — but replaying the
snapshot writes the name "a", which now collides with item 2, and the
call fails with the name-uniqueness `Conflict`, not success (and not
`NotFound`). -/
theorem restore_version_name_collision :
    (ItemStore.get_version dbColl 1 1).isSome = true ∧
    (ItemStore.restore_version dbColl 9 1 1).1 = Except.error StoreError.conflict := by
  constructor <;> decide

/-- C5 amended: with the item present (current persisted state `cur`) and
every snapshot version at most the current one, `restore_version(id, v)`
on an existing version `v` whose recorded name is not currently held by
any other row succeeds and yields a new current version
`cur.version + 1` — strictly greater than the current version and than
every snapshot version previously present — whose content equals the
content recorded at version `v`; and on a version that does not exist it
fails with `NotFound`, leaving the store unchanged. -/
theorem restore_version_spec (db : DB) (now : Nat) (id v : Int) (cur : Item)
    (hget : ItemStore.get db id = some cur)
    (hsnap : ∀ w ∈ db.item_versions, w.item_id = id → w.version ≤ cur.version) :
    (∀ old, ItemStore.get_version db id v = some old →
      (∀ r ∈ db.items, r.id ≠ id → r.name ≠ old.name) →
      (ItemStore.restore_version db now id v).1 = Except.ok () ∧
      ∃ cur', ItemStore.get ((ItemStore.restore_version db now id v).2) id = some cur' ∧
        cur'.version = cur.version + 1 ∧
        cur.version < cur'.version ∧
        (∀ w ∈ db.item_versions, w.item_id = id → w.version < cur'.version) ∧
        cur'.content = old.content) ∧
    (ItemStore.get_version db id v = none →
      ItemStore.restore_version db now id v = (Except.error StoreError.notFound, db)) := by
  constructor
  · intro old hsome hnc
    have hidold : old.id = some id := get_version_id db id v old hsome
    obtain ⟨r0, hf, hfr⟩ := get_eq_from_row db id cur hget
    have hcv : cur.version = r0.version := by rw [← hfr]; rfl
    have hrw : ItemStore.restore_version db now id v = ItemStore.update db now old := by
      rw [ItemStore.restore_version, hsome]
    rw [hrw]
    have hok : (ItemStore.update db now old).1 = Except.ok () :=
      update_fst db now old id hidold hnc
    have hver : (Item.from_row (ItemStore.updatedRow r0 now old)).version
        = r0.version + 1 := rfl
    refine ⟨hok,
      Item.from_row (ItemStore.updatedRow r0 now old),
      get_after_update db now old id r0 hidold hok hf, ?_, ?_, ?_, rfl⟩
    · omega
    · omega
    · intro w hw hwid
      have := hsnap w hw hwid
      omega
  · intro h
    rw [ItemStore.restore_version, h]

/-- C5 witness: restoring version 1 of item A in the updated fixture
store (where no other row holds any name) succeeds, yields current
version 3 (strictly above versions 2 and 1), and carries version 1's
content; and both hypotheses hold there. -/
theorem restore_version_spec_witness :
    (∀ old, ItemStore.get_version dbA2 1 1 = some old →
      (∀ r ∈ dbA2.items, r.id ≠ 1 → r.name ≠ old.name) →
      (ItemStore.restore_version dbA2 2 1 1).1 = Except.ok () ∧
      ∃ cur', ItemStore.get ((ItemStore.restore_version dbA2 2 1 1).2) 1 = some cur' ∧
        cur'.version = curA2.version + 1 ∧
        curA2.version < cur'.version ∧
        (∀ w ∈ dbA2.item_versions, w.item_id = 1 → w.version < cur'.version) ∧
        cur'.content = old.content) ∧
    (ItemStore.get_version dbA2 1 1 = none →
      ItemStore.restore_version dbA2 2 1 1 = (Except.error StoreError.notFound, dbA2)) :=
  restore_version_spec dbA2 2 1 1 curA2 (by decide) (by decide)

/-! ## C6 — tag aggregation -/

theorem tagLe_eq (a b : String × Nat) :
    (!(ItemStore.tagCmp a b == Ordering.gt))
      = (decide (b.2 < a.2) || (b.2 == a.2 && !(strCmp a.1 b.1 == Ordering.gt))) := by
  unfold ItemStore.tagCmp
  rcases Nat.lt_trichotomy b.2 a.2 with h | h | h
  · rw [Nat.compare_eq_lt.mpr h]
    have hd : decide (b.2 < a.2) = true := decide_eq_true h
    simp [Ordering.then, hd]
    decide
  · rw [Nat.compare_eq_eq.mpr h]
    have hd : decide (b.2 < a.2) = false := by simp [h]
    have hb : (b.2 == a.2) = true := by simp [h]
    simp [Ordering.then, hd, hb]
  · rw [Nat.compare_eq_gt.mpr h]
    have hd : decide (b.2 < a.2) = false := by simp; omega
    have hb : (b.2 == a.2) = false := by simp; omega
    simp [Ordering.then, hd, hb]
    decide

theorem bumpTag_keys_contains (m : List (String × Nat)) (t : String)
    (h : (m.map Prod.fst).contains t = true) :
    (ItemStore.bumpTag m t).map Prod.fst = m.map Prod.fst := by
  induction m with
  | nil => simp at h
  | cons p rest ih =>
      obtain ⟨k, c⟩ := p
      rw [ItemStore.bumpTag]
      cases hk : (k == t) with
      | true => simp
      | false =>
          have h' : (rest.map Prod.fst).contains t = true := by
            simp only [List.map_cons, List.contains_cons] at h
            rcases (Bool.or_eq_true _ _).mp h with h1 | h1
            · have ht : t = k := by simpa using h1
              rw [ht] at hk
              simp at hk
            · exact h1
          simp [ih h']

theorem bumpTag_append (m : List (String × Nat)) (t : String)
    (h : (m.map Prod.fst).contains t = false) :
    ItemStore.bumpTag m t = m ++ [(t, 1)] := by
  induction m with
  | nil => rfl
  | cons p rest ih =>
      obtain ⟨k, c⟩ := p
      simp only [List.map_cons, List.contains_cons, Bool.or_eq_false_iff] at h
      rw [ItemStore.bumpTag]
      have htk : t ≠ k := by simpa using h.1
      have hk : (k == t) = false := by simpa using (Ne.symm htk)
      simp only [hk, Bool.false_eq_true, if_false, List.cons_append]
      rw [ih h.2]

theorem bumpTag_map_count (ts : List String) (t : String) (m : List (String × Nat))
    (hnd : (m.map Prod.fst).Nodup) (hmem : (m.map Prod.fst).contains t = true) :
    (ItemStore.bumpTag m t).map (fun p => (p.1, p.2 + ts.count p.1))
      = m.map (fun p => (p.1, p.2 + (t :: ts).count p.1)) := by
  induction m with
  | nil => simp at hmem
  | cons p rest ih =>
      obtain ⟨k, c⟩ := p
      simp only [List.map_cons, List.nodup_cons] at hnd
      rw [ItemStore.bumpTag]
      cases hk : (k == t) with
      | true =>
          have hkt : k = t := by simpa using hk
          subst hkt
          simp only [if_true, List.map_cons, List.cons.injEq]
          refine ⟨?_, ?_⟩
          · simp only [List.count_cons, beq_self_eq_true, if_true, Prod.mk.injEq, true_and]
            omega
          · refine List.map_congr_left ?_
            intro q hq
            have hqk : q.1 ≠ k := by
              intro hcontra
              exact hnd.1 (hcontra ▸ List.mem_map_of_mem Prod.fst hq)
            have hkq : (k == q.1) = false := by simpa using (Ne.symm hqk)
            simp [List.count_cons, hkq]
      | false =>
          have hmem' : (rest.map Prod.fst).contains t = true := by
            simp only [List.map_cons, List.contains_cons] at hmem
            rcases (Bool.or_eq_true _ _).mp hmem with h1 | h1
            · have ht : t = k := by simpa using h1
              rw [ht] at hk
              simp at hk
            · exact h1
          simp only [Bool.false_eq_true, if_false, List.map_cons, List.cons.injEq]
          refine ⟨?_, ?_⟩
          · have hkt : k ≠ t := by simpa using hk
            have htk : (t == k) = false := by simpa using (Ne.symm hkt)
            simp [List.count_cons, htk]
          · exact ih hnd.2 hmem'

theorem mem_dedupFirstAux (seen : List String) (l : List String) (x : String)
    (hx : x ∈ dedupFirstAux seen l) : seen.contains x = false := by
  induction l generalizing seen with
  | nil => simp [dedupFirstAux] at hx
  | cons t ts ih =>
      rw [dedupFirstAux] at hx
      cases hc : seen.contains t with
      | true =>
          simp only [hc] at hx
          simp only [if_true] at hx
          exact ih seen hx
      | false =>
          simp only [hc, Bool.false_eq_true, if_false] at hx
          rcases List.mem_cons.mp hx with h | h
          · subst h; exact hc
          · have hrec := ih (seen ++ [t]) h
            have hnotin : x ∉ seen ++ [t] := by simpa using hrec
            have : x ∉ seen := fun hxx => hnotin (List.mem_append_left _ hxx)
            simpa using this

theorem foldl_bumpTag (l : List String) (m : List (String × Nat))
    (hnd : (m.map Prod.fst).Nodup) :
    l.foldl ItemStore.bumpTag m
      = m.map (fun p => (p.1, p.2 + l.count p.1))
        ++ (dedupFirstAux (m.map Prod.fst) l).map (fun t => (t, l.count t)) := by
  induction l generalizing m with
  | nil => simp [dedupFirstAux]
  | cons t ts ih =>
      simp only [List.foldl_cons]
      cases hc : (m.map Prod.fst).contains t with
      | true =>
          have hkeys := bumpTag_keys_contains m t hc
          have hnd' : ((ItemStore.bumpTag m t).map Prod.fst).Nodup := hkeys ▸ hnd
          rw [ih (ItemStore.bumpTag m t) hnd', hkeys,
            bumpTag_map_count ts t m hnd hc]
          rw [dedupFirstAux]
          simp only [hc, if_true]
          congr 1
          refine List.map_congr_left ?_
          intro x hx
          have hxs := mem_dedupFirstAux _ _ _ hx
          have hxt : (t == x) = false := by
            have hxm : x ∉ m.map Prod.fst := by simpa using hxs
            have htin : t ∈ m.map Prod.fst := by
              have : (m.map Prod.fst).elem t = true := hc
              simpa using this
            have : t ≠ x := fun he => hxm (he ▸ htin)
            simpa using this
          simp [List.count_cons, hxt]
      | false =>
          rw [bumpTag_append m t hc]
          have htm : t ∉ m.map Prod.fst := by simpa using hc
          have hkeys : ((m ++ [(t, 1)]).map Prod.fst) = m.map Prod.fst ++ [t] := by simp
          have hperm := List.perm_append_singleton t (m.map Prod.fst)
          have hndc : (t :: m.map Prod.fst).Nodup := List.nodup_cons.mpr ⟨htm, hnd⟩
          have hnd1 : (m.map Prod.fst ++ [t]).Nodup := hperm.nodup_iff.mpr hndc
          have hnd' : ((m ++ [(t, 1)]).map Prod.fst).Nodup := by rw [hkeys]; exact hnd1
          rw [ih (m ++ [(t, 1)]) hnd', hkeys]
          rw [dedupFirstAux]
          simp only [hc, Bool.false_eq_true, if_false, List.map_cons, List.map_append]
          rw [List.append_assoc]
          congr 1
          · refine List.map_congr_left ?_
            intro q hq
            have hqt : (t == q.1) = false := by
              have : t ≠ q.1 := fun hcontra =>
                htm (hcontra ▸ List.mem_map_of_mem Prod.fst hq)
              simpa using this
            simp [List.count_cons, hqt]
          · simp only [List.map_cons, List.map_nil, List.cons_append, List.nil_append,
              List.singleton_append, List.cons.injEq]
            refine ⟨?_, ?_⟩
            · simp only [List.count_cons, beq_self_eq_true, if_true, Prod.mk.injEq, true_and]
              omega
            · refine List.map_congr_left ?_
              intro x hx
              have hxs := mem_dedupFirstAux _ _ _ hx
              have hnotin : x ∉ m.map Prod.fst ++ [t] := by simpa using hxs
              have hxt : (t == x) = false := by
                have : t ≠ x := fun he =>
                  hnotin (List.mem_append_right _ (by simp [he]))
                simpa using this
              simp [List.count_cons, hxt]

theorem foldl_bumpTag_nil (l : List String) :
    l.foldl ItemStore.bumpTag [] = (dedupFirst l).map (fun t => (t, l.count t)) := by
  simpa [dedupFirst] using foldl_bumpTag l [] (by simp)

/-- C6: `get_tags_with_counts` computes exactly the tag frequency table
the spec describes — scan non-null tags, split on comma, trim,
lower-case, drop empties, count, sort by count descending with ties on
ascending tag — and on the `"Go, rust"` / `"go"` / `"RUST, go"` fixture
it returns exactly `[("go", 3), ("rust", 2)]`. -/
theorem tags_with_counts_spec :
    (∀ db : DB, ItemStore.get_tags_with_counts db = spec_tag_table db) ∧
    ItemStore.get_tags_with_counts dbTags = [("go", 3), ("rust", 2)] := by
  refine ⟨?_, by decide⟩
  intro db
  rw [ItemStore.get_tags_with_counts, spec_tag_table]
  rw [ItemStore.tagTokens, foldl_bumpTag_nil]
  congr 1
  funext a b
  exact tagLe_eq a b

/-! ## C3 — version monotonicity -/

theorem versionRange_succ (n : Nat) :
    versionRange (n + 1) = versionRange n ++ [(n : Int) + 1] := by
  simp [versionRange, List.range_succ]

theorem applyUpdates_invariant (id : Int) (us : List (Nat × Item))
    (hus : ∀ p ∈ us, (p.2 : Item).id = some id) :
    ∀ (db : DB) (k : Nat) (r : ItemRow),
    r ∈ db.items → r.id = id → r.version = 1 + (k : Int) →
    (∀ y ∈ db.items, y.id = id → y = r) →
    (db.item_versions.filter (fun w => w.item_id == id)).map (fun w => w.version)
      = versionRange k →
    ItemStore.updatesOk db us = true →
    ∃ r', r' ∈ (ItemStore.applyUpdates db us).items ∧ r'.id = id ∧
      r'.version = 1 + ((k + us.length : Nat) : Int) ∧
      (∀ y ∈ (ItemStore.applyUpdates db us).items, y.id = id → y = r') ∧
      ((ItemStore.applyUpdates db us).item_versions.filter (fun w => w.item_id == id)).map
        (fun w => w.version) = versionRange (k + us.length) := by
  induction us with
  | nil =>
      intro db k r hr hrid hrver huniq hvers _
      exact ⟨r, hr, hrid, by simpa using hrver, huniq, by simpa using hvers⟩
  | cons p rest ih =>
      intro db k r hr hrid hrver huniq hvers hok
      obtain ⟨c, u⟩ := p
      have hu : u.id = some id := hus (c, u) (List.mem_cons_self _ _)
      have hus' : ∀ q ∈ rest, (q.2 : Item).id = some id :=
        fun q hq => hus q (List.mem_cons_of_mem _ hq)
      simp only [ItemStore.updatesOk, Bool.and_eq_true, decide_eq_true_eq] at hok
      obtain ⟨hok1, hok2⟩ := hok
      have hfind : db.items.find? (fun y => y.id == id) = some r := by
        apply find?_eq_some_of_unique _ _ _ hr (by simp [hrid])
        intro y hy hpy
        exact huniq y hy (by simpa using hpy)
      have hget : ItemStore.get db id = some (Item.from_row r) := by
        rw [ItemStore.get, hfind, Option.map_some']
      have hstep : ItemStore.applyUpdates db ((c, u) :: rest)
          = ItemStore.applyUpdates ((ItemStore.update db c u).2) rest := rfl
      rw [hstep]
      have hitems : ((ItemStore.update db c u).2).items
          = db.items.map (fun y => if y.id == id then ItemStore.updatedRow y c u else y) :=
        update_ok_items db c u id hu hok1
      have hgr : (fun y => if y.id == id then ItemStore.updatedRow y c u else y) r
          = ItemStore.updatedRow r c u := by simp [hrid]
      have hr' : ItemStore.updatedRow r c u ∈ ((ItemStore.update db c u).2).items := by
        rw [hitems, ← hgr]
        exact List.mem_map_of_mem _ hr
      have hrid' : (ItemStore.updatedRow r c u).id = id := hrid
      have hrver' : (ItemStore.updatedRow r c u).version = 1 + ((k + 1 : Nat) : Int) := by
        have : (ItemStore.updatedRow r c u).version = r.version + 1 := rfl
        rw [this, hrver]
        push_cast
        ring
      have huniq' : ∀ y ∈ ((ItemStore.update db c u).2).items, y.id = id →
          y = ItemStore.updatedRow r c u := by
        intro y hy hyid
        rw [hitems] at hy
        obtain ⟨z, hz, rfl⟩ := List.mem_map.mp hy
        cases hzi : (z.id == id) with
        | true =>
            have hzid : z.id = id := by simpa using hzi
            have hzr : z = r := huniq z hz hzid
            subst hzr
            simp [hzi]
        | false =>
            rw [hzi] at hyid
            simp only [Bool.false_eq_true, if_false] at hyid
            have : z.id ≠ id := by simpa using hzi
            exact absurd hyid this
      have hvers' : (((ItemStore.update db c u).2).item_versions.filter
            (fun w => w.item_id == id)).map (fun w => w.version)
          = versionRange (k + 1) := by
        rw [update_item_versions db c u (Item.from_row r) id hu hget]
        rw [List.filter_append, List.map_append, hvers]
        have hsnap : (ItemStore.snapshotRow id (Item.from_row r) c).item_id = id := rfl
        have hsv : (ItemStore.snapshotRow id (Item.from_row r) c).version = r.version := rfl
        simp only [List.filter_cons, List.filter_nil, hsnap, beq_self_eq_true, if_true,
          List.map_cons, List.map_nil, hsv, hrver]
        rw [versionRange_succ, Int.add_comm 1]
      have hres := ih hus' ((ItemStore.update db c u).2) (k + 1)
        (ItemStore.updatedRow r c u) hr' hrid' hrver' huniq' hvers' hok2
      have harith : k + 1 + rest.length = k + ((c, u) :: rest).length := by
        simp [List.length_cons]
        omega
      rw [harith] at hres
      exact hres

/-- C3: insert an item into a store holding nothing under the fresh id,
then apply N successful single-writer updates addressed to that id: the
current row's version is `1 + N`, it is the unique row with that id, the
snapshot table holds exactly the versions `1..N` for that id in order,
and together they form the dense sequence `1..=1+N`. -/
theorem version_monotonicity (db0 db1 : DB) (t0 : Nat) (it : Item) (id : Int)
    (us : List (Nat × Item))
    (hins : ItemStore.insert db0 t0 it = (Except.ok id, db1))
    (hfresh_row : ∀ r ∈ db0.items, r.id ≠ db0.nextItemId)
    (hfresh_ver : ∀ w ∈ db0.item_versions, w.item_id ≠ db0.nextItemId)
    (hus : ∀ p ∈ us, (p.2 : Item).id = some id)
    (hok : ItemStore.updatesOk db1 us = true) :
    (∃ r, r ∈ (ItemStore.applyUpdates db1 us).items ∧ r.id = id ∧
        r.version = 1 + (us.length : Int) ∧
        (∀ y ∈ (ItemStore.applyUpdates db1 us).items, y.id = id → y = r)) ∧
    ((ItemStore.applyUpdates db1 us).item_versions.filter
        (fun w => w.item_id == id)).map (fun w => w.version) = versionRange us.length ∧
    versionRange us.length ++ [1 + (us.length : Int)] = versionRange (us.length + 1) := by
  rw [ItemStore.insert] at hins
  split at hins
  · cases hins
  · rw [Prod.mk.injEq] at hins
    have hid : id = db0.nextItemId := (Except.ok.inj hins.1).symm
    have hdb1 := hins.2
    subst hdb1
    subst hid
    have hres := applyUpdates_invariant db0.nextItemId us hus
      ({ items := db0.items ++ [{ id := db0.nextItemId, name := it.name, category := it.category.as_str, description := it.description, content := it.content, model := it.model, tools := it.tools, allowed_tools := it.allowed_tools, argument_hint := it.argument_hint, permission_mode := it.permission_mode, skills := it.skills, tags := it.tags, created_at := t0, updated_at := t0, version := 1 }], item_versions := db0.item_versions, fts := db0.fts ++ [{ rowid := db0.nextItemId, name := it.name, description := it.description, content := it.content, tags := it.tags }], nextItemId := db0.nextItemId + 1 } : DB) 0
      ({ id := db0.nextItemId, name := it.name, category := it.category.as_str, description := it.description, content := it.content, model := it.model, tools := it.tools, allowed_tools := it.allowed_tools, argument_hint := it.argument_hint, permission_mode := it.permission_mode, skills := it.skills, tags := it.tags, created_at := t0, updated_at := t0, version := 1 } : ItemRow)
      (by simp) rfl (by simp)
      ?huniq ?hvers hok
    · obtain ⟨r', hmem, hrid, hver, huniq, hvers⟩ := hres
      simp only [Nat.zero_add] at hver hvers
      refine ⟨⟨r', hmem, hrid, hver, huniq⟩, hvers, ?_⟩
      rw [versionRange_succ, Int.add_comm 1]
    case huniq =>
      intro y hy hyid
      rcases List.mem_append.mp hy with h | h
      · exact absurd hyid (hfresh_row y h)
      · simpa using h
    case hvers =>
      have : (db0.item_versions.filter (fun w => w.item_id == db0.nextItemId)) = [] := by
        rw [List.filter_eq_nil_iff]
        intro w hw
        simpa using hfresh_ver w hw
      simp [this, versionRange]

/-- C3 witness: inserting item A then updating it twice yields current
version 3 and snapshot versions `[1, 2]`. -/
theorem version_monotonicity_witness :
    (∃ r, r ∈ (ItemStore.applyUpdates dbA [(1, itemA2), (2, { itemA2 with content := "third" })]).items ∧
        r.id = 1 ∧ r.version = 1 + ((2 : Nat) : Int) ∧
        (∀ y ∈ (ItemStore.applyUpdates dbA
            [(1, itemA2), (2, { itemA2 with content := "third" })]).items,
          y.id = 1 → y = r)) ∧
    ((ItemStore.applyUpdates dbA
        [(1, itemA2), (2, { itemA2 with content := "third" })]).item_versions.filter
        (fun w => w.item_id == 1)).map (fun w => w.version) = versionRange 2 ∧
    versionRange 2 ++ [1 + ((2 : Nat) : Int)] = versionRange 3 :=
  version_monotonicity DB.empty dbA 0 itemA 1
    [(1, itemA2), (2, { itemA2 with content := "third" })]
    rfl (by decide) (by decide) (by decide) (by decide)
